import Mathlib

/-!
Shallow embedding of `liftBigWig.py` (repository `LucasSilvaFerreira/liftBigWig`).

The file has three layers:

* the Interval Repair Engine of `adjust_overlaps`, first on parsed intervals
  (`stepInterval`, `adjustIntervals`) and then on raw text lines exactly as the
  Python loop processes them (`stepLine`, `runLines`, `adjust_overlaps`);
* small models of the Python primitives the code relies on
  (`pySplit` for `str.strip().split()`, `parsePyInt` for `int(str)`,
  `pyCapitalize` for `str.capitalize()`);
* the pipeline driver `convert_bigwig`, embedded as a function from an abstract
  environment (file existence, file contents, process outcomes) to the list of
  external effects it performs together with an optional Python exception,
  mirroring that `subprocess.run` is invoked without `check=True` (a non-zero
  exit status is ignored) while a missing binary raises `FileNotFoundError`.
-/

namespace LiftBigWig

/-- Python exceptions that the script can raise: `ValueError` (failed tuple
unpacking or `int()` conversion, and the explicit assembly checks),
`FileNotFoundError` (missing file or binary) and `IndexError`
(`line.split()[0]` on a blank line). -/
inductive PyErr where
  | valueError (msg : String) : PyErr
  | fileNotFound : PyErr
  | indexError : PyErr
deriving DecidableEq

/-- A parsed bedGraph interval: the 4-tuple `(chrom, start, end, value)` of
`adjust_overlaps`.  `start` and `iend` are the two `int(...)` fields (`iend`
models the Python variable `end`, which is a reserved word in Lean); the
`value` field is kept as the raw string token, exactly as the code keeps it. -/
structure Interval where
  chrom : String
  start : Int
  iend : Int
  value : String
deriving DecidableEq

/-- The repair cursor of `adjust_overlaps`: `current_chrom` starts as
Python's `None` and `current_end` as `0`. -/
structure Cursor where
  current_chrom : Option String
  current_end : Int
deriving DecidableEq

/-- The initial cursor state: `current_chrom = None`, `current_end = 0`. -/
def initCursor : Cursor := ⟨none, 0⟩

/-- Lines 39-41 of the source: `if start < current_end: start = current_end`. -/
def clipStart (current_end start : Int) : Int :=
  if start < current_end then current_end else start

/-- Lines 35-37 of the source: `if chrom != current_chrom:` reset the cursor to
`(chrom, 0)`. -/
def resetCursor (st : Cursor) (iv : Interval) : Cursor :=
  if st.current_chrom ≠ some iv.chrom then ⟨some iv.chrom, 0⟩ else st

/-- One iteration of the `adjust_overlaps` loop body on an already-parsed
interval: reset the cursor on a chromosome change, clip the start forward when
it overlaps `current_end`, then emit the interval and advance `current_end`
only when the adjusted interval still satisfies `start < end`. -/
def stepInterval (st : Cursor) (iv : Interval) : Cursor × Option Interval :=
  let st0 := resetCursor st iv
  let start1 := clipStart st0.current_end iv.start
  if start1 < iv.iend then
    (⟨st0.current_chrom, iv.iend⟩, some { iv with start := start1 })
  else
    (st0, none)

/-- The `adjust_overlaps` loop over a list of parsed intervals, starting from
cursor `st`; dropped intervals produce no output. -/
def adjustIntervals (st : Cursor) : List Interval → List Interval
  | [] => []
  | iv :: rest =>
    match (stepInterval st iv).2 with
    | some out => out :: adjustIntervals (stepInterval st iv).1 rest
    | none => adjustIntervals (stepInterval st iv).1 rest

/-- The Interval Repair Engine on parsed intervals: `adjust_overlaps` run from
the initial cursor (`current_chrom = None`, `current_end = 0`). -/
def adjustEngine (l : List Interval) : List Interval := adjustIntervals initCursor l

/-- Helper for `pySplit`: walks the characters, accumulating the current token
(in reverse) and flushing it at each whitespace run, as Python's no-argument
`str.split()` does. -/
def pySplitChars : List Char → List Char → List String
  | [], [] => []
  | [], acc => [String.mk acc.reverse]
  | c :: cs, acc =>
    if c.isWhitespace then
      (if acc = [] then pySplitChars cs [] else String.mk acc.reverse :: pySplitChars cs [])
    else pySplitChars cs (c :: acc)

/-- Models Python's `line.strip().split()`: split on runs of whitespace,
discarding empty tokens (so leading/trailing whitespace is ignored and the
preceding `strip()` is absorbed).  Whitespace is the ASCII whitespace of
`Char.isWhitespace`; the exotic Unicode whitespace accepted by Python does not
occur in the bedGraph text format this code processes. -/
def pySplit (s : String) : List String := pySplitChars s.data []

/-- Helper for `parsePyInt`: reads a nonempty run of ASCII digits into a `Nat`,
failing on any non-digit. -/
def digitsAux : List Char → Nat → Option Nat
  | [], acc => some acc
  | c :: cs, acc => if c.isDigit then digitsAux cs (acc * 10 + (c.toNat - '0'.toNat)) else none

/-- Models CPython's `int(s)` on the whitespace-free tokens produced by
`split()`: an optional sign followed by a nonempty run of decimal digits.
(Underscore digit separators and non-ASCII digits, which CPython also accepts,
are not modelled; they do not occur in the bedGraph text format.) -/
def parsePyInt (s : String) : Option Int :=
  match s.data with
  | [] => none
  | '+' :: cs => if cs = [] then none else (digitsAux cs 0).map Int.ofNat
  | '-' :: cs => if cs = [] then none else (digitsAux cs 0).map (fun n => -(n : Int))
  | cs => (digitsAux cs 0).map Int.ofNat

/-- Line 44 of the source: `outfile.write(f"{chrom}\t{start}\t{end}\t{value}\n")`,
without the trailing newline (lines are modelled unterminated). -/
def formatLine (iv : Interval) : String :=
  iv.chrom ++ "\t" ++ toString iv.start ++ "\t" ++ toString iv.iend ++ "\t" ++ iv.value

/-- One iteration of the `adjust_overlaps` loop on a raw input line:
`chrom, start, end, value = line.strip().split()` (a `ValueError` unless there
are exactly 4 fields), `int(start)`/`int(end)` (a `ValueError` on a non-integer
token), then the interval step, producing the written line if the interval is
emitted. -/
def stepLine (st : Cursor) (line : String) : Except PyErr (Cursor × List String) :=
  match pySplit line with
  | [chrom, s, e, v] =>
    match parsePyInt s, parsePyInt e with
    | some a, some b =>
      let r := stepInterval st ⟨chrom, a, b, v⟩
      Except.ok (r.1, match r.2 with | some iv => [formatLine iv] | none => [])
    | _, _ => Except.error (PyErr.valueError "invalid literal for int() with base 10")
  | _ => Except.error (PyErr.valueError "unpacking requires exactly 4 values")

/-- The `adjust_overlaps` loop over the raw input lines: returns the lines
written to the output file before the loop finished, together with the
exception (if any) that aborted it.  Lines written before a malformed line stay
written, as they do in the real output file. -/
def runLines (st : Cursor) : List String → List String × Option PyErr
  | [] => ([], none)
  | line :: rest =>
    match stepLine st line with
    | Except.error e => ([], some e)
    | Except.ok (st', outs) =>
      let r := runLines st' rest
      (outs ++ r.1, r.2)

/-- `adjust_overlaps` at the file level: process every input line from the
initial cursor, yielding the written output lines and an optional exception. -/
def adjust_overlaps (lines : List String) : List String × Option PyErr :=
  runLines initCursor lines

/-- The sortedness precondition of the engine: ascending by
`(chromosome, start)` in the lexicographic sense. -/
def ivSortedLE (a b : Interval) : Prop :=
  a.chrom < b.chrom ∨ (a.chrom = b.chrom ∧ a.start ≤ b.start)

/-- The output invariant relation: two intervals of the same chromosome, in
output order, have strictly increasing starts and non-overlapping half-open
ranges. -/
def noOverlap (a b : Interval) : Prop :=
  a.chrom = b.chrom → a.start < b.start ∧ a.iend ≤ b.start

instance (a b : Interval) : Decidable (ivSortedLE a b) := by
  unfold ivSortedLE; infer_instance

instance (a b : Interval) : Decidable (noOverlap a b) := by
  unfold noOverlap; infer_instance

/-- An observable external effect of the driver: a `subprocess.run` with an
argument vector, a `subprocess.run(..., shell=True)`, an `os.chmod`, opening a
file for reading or writing, or an `os.remove`. -/
inductive Effect where
  | runProc (argv : List String) : Effect
  | runShell (cmd : String) : Effect
  | chmod (file : String) : Effect
  | readFile (file : String) : Effect
  | writeFile (file : String) : Effect
  | removeFile (file : String) : Effect
deriving DecidableEq

/-- The abstract world the driver runs in: which paths exist
(`os.path.exists`), the text lines of each readable file, and for each argument
vector the outcome of `subprocess.run` — `none` means the binary is missing
(Python raises `FileNotFoundError`), `some code` means the process ran and
exited with status `code`. -/
structure Env where
  pathExists : String → Bool
  readLines : String → List String
  runResult : List String → Option Int

instance {ε α : Type} [DecidableEq ε] [DecidableEq α] : DecidableEq (Except ε α) := fun a b =>
  match a, b with
  | Except.ok x, Except.ok y =>
      if h : x = y then isTrue (by rw [h]) else isFalse (by simp [h])
  | Except.error x, Except.error y =>
      if h : x = y then isTrue (by rw [h]) else isFalse (by simp [h])
  | Except.ok _, Except.error _ => isFalse (by simp)
  | Except.error _, Except.ok _ => isFalse (by simp)

/-- A driver computation: the effects performed so far, together with either a
result or the Python exception that aborted the computation. -/
abbrev PyM (α : Type) : Type := List Effect × Except PyErr α

/-- Return a value, performing no effects. -/
def pyPure {α : Type} (a : α) : PyM α := ([], Except.ok a)

/-- Sequencing of driver computations: effects accumulate in order, and an
exception aborts everything after it (no further effects are performed). -/
def pyBind {α β : Type} (x : PyM α) (f : α → PyM β) : PyM β :=
  match x with
  | (fx, Except.ok a) => (fx ++ (f a).1, (f a).2)
  | (fx, Except.error e) => (fx, Except.error e)

/-- Models `subprocess.run(argv)` as the source calls it: a missing binary
raises `FileNotFoundError`; otherwise the process runs and its exit status is
discarded (the source never passes `check=True` and never inspects the returned
`CompletedProcess`). -/
def runProcM (env : Env) (argv : List String) : PyM Unit :=
  match env.runResult argv with
  | none => ([], Except.error PyErr.fileNotFound)
  | some _ => ([Effect.runProc argv], Except.ok ())

/-- Models `subprocess.run(cmd, shell=True)`: the shell is assumed present and
the exit status is discarded. -/
def runShellM (cmd : String) : PyM Unit := ([Effect.runShell cmd], Except.ok ())

/-- Models `open(f, 'r')` plus reading all lines: `FileNotFoundError` when the
path does not exist. -/
def readLinesM (env : Env) (f : String) : PyM (List String) :=
  if env.pathExists f then ([Effect.readFile f], Except.ok (env.readLines f))
  else ([], Except.error PyErr.fileNotFound)

/-- Models `open(f, 'w')` plus writing the given lines. -/
def writeLinesM (f : String) (_lines : List String) : PyM Unit :=
  ([Effect.writeFile f], Except.ok ())

/-- Lift a pure fallible computation into the driver monad (no effects). -/
def liftE {α : Type} (e : Except PyErr α) : PyM α := ([], e)

/-- Models `os.chmod(f, 0o755)`: raises `FileNotFoundError` when the path is
missing. -/
def chmodM (env : Env) (f : String) : PyM Unit :=
  if env.pathExists f then ([Effect.chmod f], Except.ok ())
  else ([], Except.error PyErr.fileNotFound)

/-- The `(url, filename)` pairs of `download_resources`. -/
def resources : List (String × String) :=
  [("http://hgdownload.soe.ucsc.edu/admin/exe/linux.x86_64/bigWigToBedGraph", "bigWigToBedGraph"),
   ("http://hgdownload.soe.ucsc.edu/admin/exe/linux.x86_64/bedGraphToBigWig", "bedGraphToBigWig"),
   ("http://hgdownload.soe.ucsc.edu/admin/exe/linux.x86_64/bedClip", "bedClip"),
   ("http://hgdownload.cse.ucsc.edu/goldenpath/hg19/liftOver/hg19ToHg38.over.chain.gz", "hg19ToHg38.over.chain.gz"),
   ("http://hgdownload.cse.ucsc.edu/goldenpath/hg38/liftOver/hg38ToHg19.over.chain.gz", "hg38ToHg19.over.chain.gz"),
   ("https://hgdownload.cse.ucsc.edu/goldenpath/hg38/bigZips/hg38.chrom.sizes", "hg38.chrom.sizes"),
   ("https://hgdownload.cse.ucsc.edu/goldenpath/hg19/bigZips/hg19.chrom.sizes", "hg19.chrom.sizes")]

/-- One iteration of the download loop: `if not os.path.exists(filename):
subprocess.run(["wget", url])`. -/
def maybeWget (env : Env) (r : String × String) : PyM Unit :=
  if env.pathExists r.2 then pyPure () else runProcM env ["wget", r.1]

/-- The download loop over a resource list. -/
def wgetAll (env : Env) : List (String × String) → PyM Unit
  | [] => pyPure ()
  | r :: rs => pyBind (maybeWget env r) fun _ => wgetAll env rs

/-- `download_resources`: fetch any missing resource, then `chmod 0o755` the
three UCSC tools. -/
def download_resources (env : Env) : PyM Unit :=
  pyBind (wgetAll env resources) fun _ =>
  pyBind (chmodM env "bigWigToBedGraph") fun _ =>
  pyBind (chmodM env "bedGraphToBigWig") fun _ =>
  chmodM env "bedClip"

/-- Models `str.capitalize()`: first character uppercased, the rest lowercased. -/
def pyCapitalize (s : String) : String :=
  match s.data with
  | [] => ""
  | c :: cs => String.mk (c.toUpper :: cs.map Char.toLower)

/-- The chromosome-sizes loop of `convert_bigwig`: for each line take
`line.strip().split()[0]` (an `IndexError` on a blank line), collecting the
chromosome names of the target assembly. -/
def firstFields : List String → Except PyErr (List String)
  | [] => Except.ok []
  | line :: rest =>
    match pySplit line with
    | [] => Except.error PyErr.indexError
    | c :: _ =>
      match firstFields rest with
      | Except.error e => Except.error e
      | Except.ok cs => Except.ok (c :: cs)

/-- The chromosome-filter loop of `convert_bigwig`: keep each line whose first
field (`line.split()[0]`, an `IndexError` on a blank line) is in the target
chromosome set. -/
def selectChroms (chroms : List String) : List String → Except PyErr (List String)
  | [] => Except.ok []
  | line :: rest =>
    match pySplit line with
    | [] => Except.error PyErr.indexError
    | c :: _ =>
      match selectChroms chroms rest with
      | Except.error e => Except.error e
      | Except.ok keep => Except.ok (if chroms.contains c then line :: keep else keep)

/-- `adjust_overlaps(input_file, output_file)` as the driver invokes it: open
both files (a `FileNotFoundError` if the input is missing; the output file is
created either way), run the line loop, and surface its exception if any. -/
def adjust_overlapsM (env : Env) (inf outf : String) : PyM Unit :=
  if env.pathExists inf then
    ([Effect.readFile inf, Effect.writeFile outf],
      match (runLines initCursor (env.readLines inf)).2 with
      | some e => Except.error e
      | none => Except.ok ())
  else ([], Except.error PyErr.fileNotFound)

/-- The intermediate files removed by the cleanup loop of `convert_bigwig`. -/
def tempFiles : List String :=
  ["input.bedGraph", "output.bedGraph", "filtered_output.bedGraph",
   "clipped_output.bedGraph", "sorted_output.bedGraph", "adjusted_output.bedGraph"]

/-- The cleanup loop: `os.remove` each temp file that exists. -/
def cleanupM (env : Env) : PyM Unit :=
  ((tempFiles.filter env.pathExists).map Effect.removeFile, Except.ok ())

/-- The assembly validation at the top of `convert_bigwig`, as a proposition:
both identifiers are among the two known values and they differ. -/
def validAssemblies (s t : String) : Prop :=
  (s = "hg19" ∨ s = "hg38") ∧ (t = "hg19" ∨ t = "hg38") ∧ s ≠ t

instance (s t : String) : Decidable (validAssemblies s t) := by
  unfold validAssemblies; infer_instance

/-- The pipeline driver `convert_bigwig`, embedded over an abstract
environment.  The two `ValueError` checks come first, before any effect; then
the stages run in the source's order: resource download, `pip install
CrossMap`, reading the target chromosome sizes, `bigWigToBedGraph`, `CrossMap`,
the chromosome filter, `bedClip`, the shell `sort`, `adjust_overlaps`,
`bedGraphToBigWig`, and the optional temp-file cleanup.  (The cosmetic
`print_progress` console output is not an external process or file effect and
is not modelled.) -/
def convert_bigwig (env : Env) (input_file output_file source_assembly target_assembly : String)
    (clean_temp : Bool) : PyM Unit :=
  if ¬ (source_assembly = "hg19" ∨ source_assembly = "hg38") ∨
     ¬ (target_assembly = "hg19" ∨ target_assembly = "hg38") then
    ([], Except.error (PyErr.valueError "Source and target assemblies must be either 'hg19' or 'hg38'"))
  else if source_assembly = target_assembly then
    ([], Except.error (PyErr.valueError "Source and target assemblies must be different"))
  else
    pyBind (download_resources env) fun _ =>
    pyBind (runProcM env ["pip", "install", "CrossMap"]) fun _ =>
    let chain_file := source_assembly ++ "To" ++ pyCapitalize target_assembly ++ ".over.chain.gz"
    let chrom_sizes_file := target_assembly ++ ".chrom.sizes"
    pyBind (readLinesM env chrom_sizes_file) fun sizeLines =>
    pyBind (liftE (firstFields sizeLines)) fun target_chroms =>
    pyBind (runProcM env ["./bigWigToBedGraph", input_file, "input.bedGraph"]) fun _ =>
    pyBind (runProcM env ["CrossMap", "bed", chain_file, "input.bedGraph", "output.bedGraph"]) fun _ =>
    pyBind (readLinesM env "output.bedGraph") fun outLines =>
    pyBind (liftE (selectChroms target_chroms outLines)) fun filtered =>
    pyBind (writeLinesM "filtered_output.bedGraph" filtered) fun _ =>
    pyBind (runProcM env ["./bedClip", "filtered_output.bedGraph", chrom_sizes_file, "clipped_output.bedGraph"]) fun _ =>
    pyBind (runShellM "sort -k1,1 -k2,2n clipped_output.bedGraph > sorted_output.bedGraph") fun _ =>
    pyBind (adjust_overlapsM env "sorted_output.bedGraph" "adjusted_output.bedGraph") fun _ =>
    pyBind (runProcM env ["./bedGraphToBigWig", "adjusted_output.bedGraph", chrom_sizes_file, output_file]) fun _ =>
    if clean_temp then cleanupM env else pyPure ()

/-- A concrete test environment: every path exists, every readable file holds
one well-formed bedGraph line, every binary is present, and every process
exits 0 except `./bigWigToBedGraph`, which exits 1. -/
def envExitOne : Env :=
  { pathExists := fun _ => true
    readLines := fun _ => ["chr1\t0\t10\t1.0"]
    runResult := fun argv => if argv.head? = some "./bigWigToBedGraph" then some 1 else some 0 }

/-- A concrete test environment identical to `envExitOne` except that the
`CrossMap` binary is missing (running it raises `FileNotFoundError`). -/
def envNoCrossMap : Env :=
  { pathExists := fun _ => true
    readLines := fun _ => ["chr1\t0\t10\t1.0"]
    runResult := fun argv => if argv.head? = some "CrossMap" then none else some 0 }

/-! ### Helper lemmas about the Interval Repair Engine -/

lemma le_clipStart (e s : Int) : e ≤ clipStart e s := by
  unfold clipStart; split <;> omega

lemma self_le_clipStart (e s : Int) : s ≤ clipStart e s := by
  unfold clipStart; split <;> omega

lemma clipStart_of_le {e s : Int} (h : e ≤ s) : clipStart e s = s := by
  unfold clipStart; split <;> omega

lemma resetCursor_eq (oc : Option String) (e : Int) (iv : Interval) :
    resetCursor ⟨oc, e⟩ iv = ⟨some iv.chrom, if oc = some iv.chrom then e else 0⟩ := by
  unfold resetCursor
  by_cases h : oc = some iv.chrom <;> simp [h]

lemma stepInterval_eq (oc : Option String) (e : Int) (iv : Interval) :
    stepInterval ⟨oc, e⟩ iv =
      (if clipStart (if oc = some iv.chrom then e else 0) iv.start < iv.iend
       then (⟨some iv.chrom, iv.iend⟩,
             some { iv with start := clipStart (if oc = some iv.chrom then e else 0) iv.start })
       else (⟨some iv.chrom, if oc = some iv.chrom then e else 0⟩, none)) := by
  simp only [stepInterval, resetCursor_eq]

lemma adjustIntervals_nil (st : Cursor) : adjustIntervals st [] = [] := rfl

lemma adjustIntervals_cons_emit {st : Cursor} {iv out : Interval} (rest : List Interval)
    (h : (stepInterval st iv).2 = some out) :
    adjustIntervals st (iv :: rest) = out :: adjustIntervals (stepInterval st iv).1 rest := by
  simp only [adjustIntervals, h]

lemma adjustIntervals_cons_drop {st : Cursor} {iv : Interval} (rest : List Interval)
    (h : (stepInterval st iv).2 = none) :
    adjustIntervals st (iv :: rest) = adjustIntervals (stepInterval st iv).1 rest := by
  simp only [adjustIntervals, h]

/-- Every output interval of the engine keeps the chromosome, end and value of
some input interval, and its start has only ever been moved forward. -/
lemma mem_adjust_src :
    ∀ (l : List Interval) (st : Cursor) (x : Interval),
      x ∈ adjustIntervals st l →
      ∃ y ∈ l, x.chrom = y.chrom ∧ x.iend = y.iend ∧ x.value = y.value ∧ y.start ≤ x.start := by
  intro l
  induction l with
  | nil => intro st x hx; simp [adjustIntervals_nil] at hx
  | cons iv rest ih =>
    intro st x hx
    obtain ⟨oc, e⟩ := st
    have hstep := stepInterval_eq oc e iv
    by_cases hcl : clipStart (if oc = some iv.chrom then e else 0) iv.start < iv.iend
    · rw [if_pos hcl] at hstep
      have h2 : (stepInterval ⟨oc, e⟩ iv).2 =
          some { iv with start := clipStart (if oc = some iv.chrom then e else 0) iv.start } := by
        rw [hstep]
      rw [adjustIntervals_cons_emit rest h2] at hx
      rcases List.mem_cons.mp hx with hx | hx
      · refine ⟨iv, List.mem_cons_self _ _, ?_⟩
        subst hx
        exact ⟨rfl, rfl, rfl, self_le_clipStart _ _⟩
      · obtain ⟨y, hy, hprop⟩ := ih _ _ hx
        exact ⟨y, List.mem_cons_of_mem _ hy, hprop⟩
    · rw [if_neg hcl] at hstep
      have h2 : (stepInterval ⟨oc, e⟩ iv).2 = none := by rw [hstep]
      rw [adjustIntervals_cons_drop rest h2] at hx
      obtain ⟨y, hy, hprop⟩ := ih _ _ hx
      exact ⟨y, List.mem_cons_of_mem _ hy, hprop⟩

lemma ivSortedLE_chrom_le {a b : Interval} (h : ivSortedLE a b) : a.chrom ≤ b.chrom := by
  rcases h with h | ⟨h, _⟩
  · exact le_of_lt h
  · exact le_of_eq h

/-- Once the cursor has moved past a chromosome, sorted input never brings an
interval of an earlier chromosome back: if the cursor chromosome differs from
the head's and dominates nothing later, no output of the tail can match it. -/
lemma no_return_chrom {oc : Option String} {iv : Interval} {rest : List Interval}
    (hc : ∀ c' : String, oc = some c' → ∀ x ∈ iv :: rest, c' ≤ x.chrom)
    (hne : oc ≠ some iv.chrom)
    (hhead : ∀ y ∈ rest, ivSortedLE iv y)
    {e : Int} {x : Interval} (hx : x ∈ adjustIntervals ⟨some iv.chrom, e⟩ rest)
    (hoc : oc = some x.chrom) : False := by
  obtain ⟨y, hy, hch, -, -, -⟩ := mem_adjust_src rest _ x hx
  have h1 : x.chrom ≤ iv.chrom := hc x.chrom hoc iv (List.mem_cons_self _ _)
  have h2 : iv.chrom ≤ x.chrom := by
    rw [hch]; exact ivSortedLE_chrom_le (hhead y hy)
  exact hne (by rw [hoc, le_antisymm h1 h2])

/-- The central invariant of the Interval Repair Engine, generalized over the
cursor: on sorted input whose chromosomes all dominate the cursor chromosome,
every output interval has positive length, outputs of a common chromosome are
strictly increasing and non-overlapping, and outputs on the cursor chromosome
start at or after the cursor's `current_end`. -/
lemma adjust_master :
    ∀ (l : List Interval) (oc : Option String) (e : Int),
      List.Pairwise ivSortedLE l →
      (∀ c : String, oc = some c → ∀ x ∈ l, c ≤ x.chrom) →
      (∀ x ∈ adjustIntervals ⟨oc, e⟩ l, x.start < x.iend) ∧
      List.Pairwise noOverlap (adjustIntervals ⟨oc, e⟩ l) ∧
      (∀ x ∈ adjustIntervals ⟨oc, e⟩ l, oc = some x.chrom → e ≤ x.start) := by
  intro l
  induction l with
  | nil => intro oc e _ _; simp [adjustIntervals_nil]
  | cons iv rest ih =>
    intro oc e hs hc
    obtain ⟨hhead, hs'⟩ := List.pairwise_cons.mp hs
    have hc' : ∀ c : String, some iv.chrom = some c → ∀ x ∈ rest, c ≤ x.chrom := by
      intro c hceq x hxmem
      injection hceq with hceq
      subst hceq
      exact ivSortedLE_chrom_le (hhead x hxmem)
    have hstep := stepInterval_eq oc e iv
    by_cases hcl : clipStart (if oc = some iv.chrom then e else 0) iv.start < iv.iend
    · -- the head interval is emitted (possibly with its start clipped forward)
      rw [if_pos hcl] at hstep
      have h2 : (stepInterval ⟨oc, e⟩ iv).2 =
          some { iv with start := clipStart (if oc = some iv.chrom then e else 0) iv.start } := by
        rw [hstep]
      have h1 : (stepInterval ⟨oc, e⟩ iv).1 = ⟨some iv.chrom, iv.iend⟩ := by rw [hstep]
      rw [adjustIntervals_cons_emit rest h2, h1]
      obtain ⟨ih1, ih2, ih3⟩ := ih (some iv.chrom) iv.iend hs' hc'
      refine ⟨?_, ?_, ?_⟩
      · intro x hx
        rcases List.mem_cons.mp hx with hx | hx
        · subst hx; exact hcl
        · exact ih1 x hx
      · refine List.pairwise_cons.mpr ⟨?_, ih2⟩
        intro x hx
        show _ = x.chrom → _
        intro hchrom
        have hx3 : iv.iend ≤ x.start := ih3 x hx (by rw [← hchrom])
        exact ⟨lt_of_lt_of_le hcl hx3, hx3⟩
      · intro x hx hoc
        rcases List.mem_cons.mp hx with hx | hx
        · subst hx
          by_cases hsame : oc = some iv.chrom
          · rw [if_pos hsame]
            exact le_clipStart _ _
          · exact absurd hoc hsame
        · by_cases hsame : oc = some iv.chrom
          · have hx3 : iv.iend ≤ x.start := ih3 x hx (by rw [← hsame]; exact hoc)
            have : e ≤ clipStart (if oc = some iv.chrom then e else 0) iv.start := by
              rw [if_pos hsame]; exact le_clipStart _ _
            omega
          · exact absurd hoc (fun hoc => no_return_chrom hc hsame hhead hx hoc)
    · -- the head interval is dropped; the cursor keeps its current_end
      rw [if_neg hcl] at hstep
      have h2 : (stepInterval ⟨oc, e⟩ iv).2 = none := by rw [hstep]
      have h1 : (stepInterval ⟨oc, e⟩ iv).1 =
          ⟨some iv.chrom, if oc = some iv.chrom then e else 0⟩ := by rw [hstep]
      rw [adjustIntervals_cons_drop rest h2, h1]
      obtain ⟨ih1, ih2, ih3⟩ :=
        ih (some iv.chrom) (if oc = some iv.chrom then e else 0) hs' hc'
      refine ⟨ih1, ih2, ?_⟩
      intro x hx hoc
      by_cases hsame : oc = some iv.chrom
      · have := ih3 x hx (by rw [← hsame]; exact hoc)
        rw [if_pos hsame] at this
        exact this
      · exact absurd hoc (fun hoc => no_return_chrom hc hsame hhead hx hoc)

/-- Starting from a non-negative `current_end`, every emitted start is
non-negative (the cursor resets to 0 and only ever advances to an emitted,
positive end). -/
lemma adjust_nonneg :
    ∀ (l : List Interval) (oc : Option String) (e : Int), 0 ≤ e →
      ∀ x ∈ adjustIntervals ⟨oc, e⟩ l, 0 ≤ x.start := by
  intro l
  induction l with
  | nil => intro oc e _ x hx; simp [adjustIntervals_nil] at hx
  | cons iv rest ih =>
    intro oc e he x hx
    have he0 : (0 : Int) ≤ if oc = some iv.chrom then e else 0 := by
      split <;> omega
    have hclip : (0 : Int) ≤ clipStart (if oc = some iv.chrom then e else 0) iv.start :=
      le_trans he0 (le_clipStart _ _)
    have hstep := stepInterval_eq oc e iv
    by_cases hcl : clipStart (if oc = some iv.chrom then e else 0) iv.start < iv.iend
    · rw [if_pos hcl] at hstep
      have h2 : (stepInterval ⟨oc, e⟩ iv).2 =
          some { iv with start := clipStart (if oc = some iv.chrom then e else 0) iv.start } := by
        rw [hstep]
      have h1 : (stepInterval ⟨oc, e⟩ iv).1 = ⟨some iv.chrom, iv.iend⟩ := by rw [hstep]
      rw [adjustIntervals_cons_emit rest h2, h1] at hx
      rcases List.mem_cons.mp hx with hx | hx
      · subst hx; exact hclip
      · exact ih (some iv.chrom) iv.iend (by omega) x hx
    · rw [if_neg hcl] at hstep
      have h2 : (stepInterval ⟨oc, e⟩ iv).2 = none := by rw [hstep]
      have h1 : (stepInterval ⟨oc, e⟩ iv).1 =
          ⟨some iv.chrom, if oc = some iv.chrom then e else 0⟩ := by rw [hstep]
      rw [adjustIntervals_cons_drop rest h2, h1] at hx
      exact ih (some iv.chrom) _ he0 x hx

/-- A pass of the engine over a list that already satisfies its own output
invariant (non-negative starts, positive lengths, and consecutive intervals of
a common chromosome non-overlapping) emits every interval unchanged. -/
lemma pass_fixed :
    ∀ (l : List Interval) (st : Cursor),
      (∀ x ∈ l, 0 ≤ x.start ∧ x.start < x.iend) →
      List.Chain' (fun a b => a.chrom = b.chrom → a.iend ≤ b.start) l →
      (∀ x, l.head? = some x → st.current_chrom = some x.chrom → st.current_end ≤ x.start) →
      adjustIntervals st l = l := by
  intro l
  induction l with
  | nil => intro st _ _ _; exact adjustIntervals_nil st
  | cons iv rest ih =>
    intro st hall hchain hhd
    obtain ⟨oc, e⟩ := st
    obtain ⟨hiv0, hivlen⟩ := hall iv (List.mem_cons_self _ _)
    have he0 : (if oc = some iv.chrom then e else 0) ≤ iv.start := by
      by_cases hsame : oc = some iv.chrom
      · rw [if_pos hsame]; exact hhd iv rfl hsame
      · rw [if_neg hsame]; exact hiv0
    have hclip : clipStart (if oc = some iv.chrom then e else 0) iv.start = iv.start :=
      clipStart_of_le he0
    have hstep := stepInterval_eq oc e iv
    rw [hclip, if_pos hivlen] at hstep
    have h2 : (stepInterval ⟨oc, e⟩ iv).2 = some { iv with start := iv.start } := by rw [hstep]
    have h1 : (stepInterval ⟨oc, e⟩ iv).1 = ⟨some iv.chrom, iv.iend⟩ := by rw [hstep]
    rw [adjustIntervals_cons_emit rest h2, h1]
    have hiv_eta : ({ iv with start := iv.start } : Interval) = iv := rfl
    rw [hiv_eta]
    congr 1
    refine ih ⟨some iv.chrom, iv.iend⟩ (fun x hx => hall x (List.mem_cons_of_mem _ hx))
      (List.Chain'.tail hchain) ?_
    intro y hy hyc
    injection hyc with hyc
    have := (List.chain'_cons'.mp hchain).1 y hy
    exact this hyc

/-- The output of the engine is, position by position, a sublist of the input
in which only the start coordinate may have moved forward. -/
lemma adjust_sublist :
    ∀ (l : List Interval) (st : Cursor),
      ∃ sub : List Interval, sub.Sublist l ∧
        List.Forall₂
          (fun a b => b.chrom = a.chrom ∧ b.iend = a.iend ∧ b.value = a.value ∧ a.start ≤ b.start)
          sub (adjustIntervals st l) := by
  intro l
  induction l with
  | nil =>
    intro st
    exact ⟨[], List.nil_sublist _, by simp [adjustIntervals_nil]⟩
  | cons iv rest ih =>
    intro st
    obtain ⟨oc, e⟩ := st
    have hstep := stepInterval_eq oc e iv
    by_cases hcl : clipStart (if oc = some iv.chrom then e else 0) iv.start < iv.iend
    · rw [if_pos hcl] at hstep
      have h2 : (stepInterval ⟨oc, e⟩ iv).2 =
          some { iv with start := clipStart (if oc = some iv.chrom then e else 0) iv.start } := by
        rw [hstep]
      have h1 : (stepInterval ⟨oc, e⟩ iv).1 = ⟨some iv.chrom, iv.iend⟩ := by rw [hstep]
      obtain ⟨sub, hsub, hf⟩ := ih ⟨some iv.chrom, iv.iend⟩
      rw [adjustIntervals_cons_emit rest h2, h1]
      exact ⟨iv :: sub, hsub.cons₂ iv,
        List.Forall₂.cons ⟨rfl, rfl, rfl, self_le_clipStart _ _⟩ hf⟩
    · rw [if_neg hcl] at hstep
      have h2 : (stepInterval ⟨oc, e⟩ iv).2 = none := by rw [hstep]
      have h1 : (stepInterval ⟨oc, e⟩ iv).1 =
          ⟨some iv.chrom, if oc = some iv.chrom then e else 0⟩ := by rw [hstep]
      obtain ⟨sub, hsub, hf⟩ := ih ⟨some iv.chrom, if oc = some iv.chrom then e else 0⟩
      rw [adjustIntervals_cons_drop rest h2, h1]
      exact ⟨sub, hsub.cons iv, hf⟩

lemma clipStart_cases (e s : Int) : clipStart e s = e ∨ clipStart e s = s := by
  unfold clipStart; split
  · exact Or.inl rfl
  · exact Or.inr rfl

/-! ### Claim theorems -/

/-- Claim C1: for every input sequence of well-formed intervals sorted
ascending by `(chromosome, start)`, the output of the Interval Repair Engine
satisfies: within each chromosome, intervals appear with strictly increasing,
non-overlapping half-open `[start, end)` ranges, and every emitted interval has
`start < end`. -/
theorem C1_repair_invariant (l : List Interval)
    (hs : List.Pairwise ivSortedLE l)
    (_hw : ∀ iv ∈ l, iv.start < iv.iend) :
    (∀ iv ∈ adjustEngine l, iv.start < iv.iend) ∧
    List.Pairwise noOverlap (adjustEngine l) := by
  have h := adjust_master l none 0 hs (fun c hc => nomatch hc)
  exact ⟨h.1, h.2.1⟩

/-- Witness for C1 at a concrete sorted, well-formed input. -/
theorem C1_repair_invariant_witness :
    (∀ iv ∈ adjustEngine [⟨"chr1", 100, 200, "5.0"⟩, ⟨"chr1", 150, 250, "3.0"⟩],
        iv.start < iv.iend) ∧
    List.Pairwise noOverlap (adjustEngine [⟨"chr1", 100, 200, "5.0"⟩, ⟨"chr1", 150, 250, "3.0"⟩]) :=
  C1_repair_invariant _
    (by
      refine List.Pairwise.cons ?_ (List.pairwise_singleton _ _)
      intro y hy
      rw [List.mem_singleton] at hy
      subst hy
      exact Or.inr ⟨rfl, by norm_num⟩)
    (by decide)

/-- Claim C2: the engine rewrites `start` to `current_end` exactly when
`start < current_end` (the strict comparison); an abutting interval
(`start = current_end`) is emitted unchanged.  On the spec's Scenario 1 input
the middle interval's start is clipped from 150 to 200. -/
theorem C2_clip_on_overlap :
    (∀ e s : Int, s < e → clipStart e s = e) ∧
    (∀ e s : Int, e ≤ s → clipStart e s = s) ∧
    (∀ (st : Cursor) (iv : Interval),
        (stepInterval st iv).2 =
          if clipStart (resetCursor st iv).current_end iv.start < iv.iend
          then some { iv with start := clipStart (resetCursor st iv).current_end iv.start }
          else none) ∧
    (∀ (iv : Interval) (e : Int), iv.start = e → iv.start < iv.iend →
        stepInterval ⟨some iv.chrom, e⟩ iv = (⟨some iv.chrom, iv.iend⟩, some iv)) ∧
    adjustEngine [⟨"chr1", 100, 200, "5.0"⟩, ⟨"chr1", 150, 250, "3.0"⟩, ⟨"chr1", 260, 300, "1.0"⟩] =
      [⟨"chr1", 100, 200, "5.0"⟩, ⟨"chr1", 200, 250, "3.0"⟩, ⟨"chr1", 260, 300, "1.0"⟩] := by
  refine ⟨?_, ?_, ?_, ?_, by decide⟩
  · intro e s h
    unfold clipStart
    rw [if_pos h]
  · intro e s h
    unfold clipStart
    rw [if_neg (not_lt.mpr h)]
  · intro st iv
    simp only [stepInterval]
    split <;> rfl
  · intro iv e he hlen
    subst he
    rw [stepInterval_eq, if_pos rfl, clipStart_of_le le_rfl, if_pos hlen]

/-- Witness for C2: a strict overlap is clipped to `current_end`, and an
abutting interval is emitted unchanged. -/
theorem C2_clip_on_overlap_witness :
    clipStart 200 150 = 200 ∧
    stepInterval ⟨some "chr1", 100⟩ ⟨"chr1", 100, 200, "5.0"⟩ =
      (⟨some "chr1", 200⟩, some ⟨"chr1", 100, 200, "5.0"⟩) :=
  ⟨C2_clip_on_overlap.1 200 150 (by decide),
   C2_clip_on_overlap.2.2.2.1 ⟨"chr1", 100, 200, "5.0"⟩ 100 rfl (by decide)⟩

/-- Claim C3: an interval whose post-adjustment start is not below its end
(equivalently, for a well-formed interval on the cursor's chromosome,
`end ≤ current_end`) is silently dropped, and the cursor's `current_end` is
advanced only when an interval is emitted.  On the spec's Scenario 2 input the
subsumed interval disappears from the output. -/
theorem C3_drop_subsumed :
    (∀ (iv : Interval) (e : Int), iv.iend ≤ clipStart e iv.start →
        stepInterval ⟨some iv.chrom, e⟩ iv = (⟨some iv.chrom, e⟩, none)) ∧
    (∀ (iv : Interval) (e : Int), iv.start < iv.iend →
        ((stepInterval ⟨some iv.chrom, e⟩ iv).2 = none ↔ iv.iend ≤ e)) ∧
    (∀ (st : Cursor) (iv : Interval), (stepInterval st iv).2 = none →
        (stepInterval st iv).1 = resetCursor st iv) ∧
    adjustEngine [⟨"chr1", 100, 200, "5.0"⟩, ⟨"chr1", 120, 180, "2.0"⟩] =
      [⟨"chr1", 100, 200, "5.0"⟩] := by
  refine ⟨?_, ?_, ?_, by decide⟩
  · intro iv e h
    rw [stepInterval_eq, if_pos rfl, if_neg (not_lt.mpr h)]
  · intro iv e hwf
    have h1 := le_clipStart e iv.start
    have hc := clipStart_cases e iv.start
    rw [stepInterval_eq, if_pos rfl]
    by_cases hlt : clipStart e iv.start < iv.iend
    · rw [if_pos hlt]
      constructor
      · intro h; exact absurd h (by simp)
      · intro h; exfalso; omega
    · rw [if_neg hlt]
      constructor
      · intro _
        rcases hc with hc | hc <;> omega
      · intro _; rfl
  · intro st iv h
    obtain ⟨oc, e⟩ := st
    rw [stepInterval_eq] at h ⊢
    by_cases hcl : clipStart (if oc = some iv.chrom then e else 0) iv.start < iv.iend
    · rw [if_pos hcl] at h
      exact absurd h (by simp)
    · rw [if_neg hcl]
      rw [resetCursor_eq]

/-- Witness for C3: an interval fully inside the previously emitted range is
dropped and the cursor keeps its `current_end`. -/
theorem C3_drop_subsumed_witness :
    stepInterval ⟨some "chr1", 200⟩ ⟨"chr1", 120, 180, "2.0"⟩ = (⟨some "chr1", 200⟩, none) :=
  C3_drop_subsumed.1 ⟨"chr1", 120, 180, "2.0"⟩ 200 (by decide)

/-- Claim C4: a chromosome change resets the cursor to `(chrom, 0)`, so the
step behaves exactly as from a fresh cursor on that chromosome and an interval
at the start of a new chromosome is never clipped against the previous
chromosome's end.  On the spec's Scenario 3 input both intervals pass through
unchanged. -/
theorem C4_chrom_reset :
    (∀ (st : Cursor) (iv : Interval), st.current_chrom ≠ some iv.chrom →
        resetCursor st iv = ⟨some iv.chrom, 0⟩ ∧
        stepInterval st iv = stepInterval ⟨some iv.chrom, 0⟩ iv) ∧
    (∀ (st : Cursor) (iv : Interval), st.current_chrom ≠ some iv.chrom → 0 ≤ iv.start →
        (stepInterval st iv).2 = if iv.start < iv.iend then some iv else none) ∧
    adjustEngine [⟨"chr1", 100, 200, "5.0"⟩, ⟨"chr2", 50, 150, "9.0"⟩] =
      [⟨"chr1", 100, 200, "5.0"⟩, ⟨"chr2", 50, 150, "9.0"⟩] := by
  refine ⟨?_, ?_, by decide⟩
  · intro st iv hne
    obtain ⟨oc, e⟩ := st
    constructor
    · rw [resetCursor_eq, if_neg (fun h => hne h)]
    · rw [stepInterval_eq, stepInterval_eq, if_neg (fun h => hne h), if_pos rfl]
  · intro st iv hne h0
    obtain ⟨oc, e⟩ := st
    rw [stepInterval_eq, if_neg (fun h => hne h), clipStart_of_le h0]
    by_cases hlt : iv.start < iv.iend
    · rw [if_pos hlt, if_pos hlt]
    · rw [if_neg hlt, if_neg hlt]

/-- Witness for C4: against a cursor left on chr1, an interval on chr2 is
processed exactly as from a fresh cursor. -/
theorem C4_chrom_reset_witness :
    resetCursor ⟨some "chr1", 200⟩ ⟨"chr2", 50, 150, "9.0"⟩ = ⟨some "chr2", 0⟩ ∧
    stepInterval ⟨some "chr1", 200⟩ ⟨"chr2", 50, 150, "9.0"⟩ =
      stepInterval ⟨some "chr2", 0⟩ ⟨"chr2", 50, 150, "9.0"⟩ :=
  C4_chrom_reset.1 ⟨some "chr1", 200⟩ ⟨"chr2", 50, 150, "9.0"⟩ (by decide)

/-- Claim C5: the engine never splits an interval and only ever moves a start
boundary forward: the output is at most as long as the input and corresponds,
in order, to a sublist of the input with equal chromosome, end and value and
with `start` not decreased. -/
theorem C5_frame (l : List Interval) :
    (adjustEngine l).length ≤ l.length ∧
    ∃ sub : List Interval, sub.Sublist l ∧
      List.Forall₂
        (fun a b => b.chrom = a.chrom ∧ b.iend = a.iend ∧ b.value = a.value ∧ a.start ≤ b.start)
        sub (adjustEngine l) := by
  obtain ⟨sub, hsub, hf⟩ := adjust_sublist l initCursor
  refine ⟨?_, sub, hsub, hf⟩
  have h1 : sub.length = (adjustEngine l).length := hf.length_eq
  have h2 : sub.length ≤ l.length := hsub.length_le
  omega

/-- Claim C6: the engine is idempotent on input sorted by
`(chromosome, start)`: feeding its output back in reproduces the output. -/
theorem C6_idempotent (l : List Interval) (hs : List.Pairwise ivSortedLE l) :
    adjustEngine (adjustEngine l) = adjustEngine l := by
  have hm := adjust_master l none 0 hs (fun c hc => nomatch hc)
  have hnn := adjust_nonneg l none 0 le_rfl
  refine pass_fixed (adjustEngine l) initCursor
    (fun x hx => ⟨hnn x hx, hm.1 x hx⟩) ?_ ?_
  · exact (hm.2.1.imp (fun hab hc => (hab hc).2)).chain'
  · intro x _ hcc
    exact absurd hcc (by simp [initCursor])

/-- Witness for C6 at a concrete sorted input containing an overlap. -/
theorem C6_idempotent_witness :
    adjustEngine (adjustEngine [⟨"chr1", 100, 200, "5.0"⟩, ⟨"chr1", 150, 250, "3.0"⟩]) =
      adjustEngine [⟨"chr1", 100, 200, "5.0"⟩, ⟨"chr1", 150, 250, "3.0"⟩] :=
  C6_idempotent _
    (by
      refine List.Pairwise.cons ?_ (List.pairwise_singleton _ _)
      intro y hy
      rw [List.mem_singleton] at hy
      subst hy
      exact Or.inr ⟨rfl, by norm_num⟩)

/-! ### Helper lemmas about the line level -/

lemma stepLine_error_count {line : String} (st : Cursor)
    (h : (pySplit line).length ≠ 4) :
    stepLine st line = Except.error (PyErr.valueError "unpacking requires exactly 4 values") := by
  rcases hsp : pySplit line with _ | ⟨a, _ | ⟨b, _ | ⟨c, _ | ⟨d, _ | ⟨x, t⟩⟩⟩⟩⟩ <;>
    simp [stepLine, hsp]
  rw [hsp] at h
  simp at h

lemma stepLine_error_int {line : String} (st : Cursor) {c s e v : String}
    (hsp : pySplit line = [c, s, e, v])
    (hpe : parsePyInt s = none ∨ parsePyInt e = none) :
    stepLine st line =
      Except.error (PyErr.valueError "invalid literal for int() with base 10") := by
  rcases hpe with hpe | hpe
  · simp [stepLine, hsp, hpe]
  · cases hps : parsePyInt s <;> simp [stepLine, hsp, hps, hpe]

lemma runLines_cons_error {line : String} {st : Cursor} {err : PyErr}
    (rest : List String) (h : stepLine st line = Except.error err) :
    runLines st (line :: rest) = ([], some err) := by
  simp [runLines, h]

lemma stepInterval_out_fields {st : Cursor} {iv out : Interval}
    (h : (stepInterval st iv).2 = some out) :
    out.chrom = iv.chrom ∧ out.iend = iv.iend ∧ out.value = iv.value := by
  obtain ⟨oc, e⟩ := st
  rw [stepInterval_eq] at h
  by_cases hcl : clipStart (if oc = some iv.chrom then e else 0) iv.start < iv.iend
  · rw [if_pos hcl] at h
    injection h with h
    subst h
    exact ⟨rfl, rfl, rfl⟩
  · rw [if_neg hcl] at h
    exact absurd h (by simp)

lemma stepLine_ok_shape {st : Cursor} {line : String} {st' : Cursor} {outs : List String}
    (h : stepLine st line = Except.ok (st', outs)) :
    outs = [] ∨ ∃ (c s e v : String) (a b : Int) (iv : Interval),
      pySplit line = [c, s, e, v] ∧ parsePyInt s = some a ∧ parsePyInt e = some b ∧
      (stepInterval st ⟨c, a, b, v⟩).2 = some iv ∧ outs = [formatLine iv] := by
  rcases hsp : pySplit line with _ | ⟨c, _ | ⟨s, _ | ⟨e, _ | ⟨v, _ | ⟨w, t⟩⟩⟩⟩⟩ <;>
    simp [stepLine, hsp] at h
  cases hps : parsePyInt s with
  | none => simp [hps] at h
  | some a =>
    cases hpe : parsePyInt e with
    | none => simp [hps, hpe] at h
    | some b =>
      simp [hps, hpe] at h
      cases hr : (stepInterval st ⟨c, a, b, v⟩).2 with
      | none =>
        rw [hr] at h
        exact Or.inl h.2.symm
      | some iv =>
        rw [hr] at h
        exact Or.inr ⟨c, s, e, v, a, b, iv, rfl, hps, hpe, hr, h.2.symm⟩

lemma runLines_src :
    ∀ (lines : List String) (st : Cursor) (o : String),
      o ∈ (runLines st lines).1 →
      ∃ i ∈ lines, ∃ c s e v : String, pySplit i = [c, s, e, v] ∧
        ∃ a b : Int, o = c ++ "\t" ++ toString a ++ "\t" ++ toString b ++ "\t" ++ v := by
  intro lines
  induction lines with
  | nil => intro st o ho; simp [runLines] at ho
  | cons line rest ih =>
    intro st o ho
    cases hstep : stepLine st line with
    | error err => simp [runLines, hstep] at ho
    | ok p =>
      obtain ⟨st', outs⟩ := p
      rw [runLines, hstep] at ho
      rcases List.mem_append.mp ho with ho | ho
      · rcases stepLine_ok_shape hstep with hsh | ⟨c, s, e, v, a, b, iv, hsp, -, -, hr, houts⟩
        · rw [hsh] at ho
          simp at ho
        · rw [houts, List.mem_singleton] at ho
          obtain ⟨hch, hie, hva⟩ := stepInterval_out_fields hr
          refine ⟨line, List.mem_cons_self _ _, c, s, e, v, hsp, iv.start, b, ?_⟩
          rw [ho]
          unfold formatLine
          rw [hch, hie, hva]
      · obtain ⟨i, hi, rest_prop⟩ := ih st' o ho
        exact ⟨i, List.mem_cons_of_mem _ hi, rest_prop⟩

/-- Claim C9: on a line whose whitespace-separated field count is not exactly
4, or whose start or end field is not an integer literal, `adjust_overlaps`
raises a `ValueError` (fail-fast): the step yields an exception and the run
aborts at that line without emitting anything for it. -/
theorem C9_fail_fast (line : String) (st : Cursor)
    (h : (pySplit line).length ≠ 4 ∨
         ∃ c s e v : String, pySplit line = [c, s, e, v] ∧
           (parsePyInt s = none ∨ parsePyInt e = none)) :
    ∃ msg : String, stepLine st line = Except.error (PyErr.valueError msg) ∧
      ∀ rest : List String,
        runLines st (line :: rest) = ([], some (PyErr.valueError msg)) := by
  rcases h with h | ⟨c, s, e, v, hsp, hpe⟩
  · exact ⟨"unpacking requires exactly 4 values", stepLine_error_count st h,
      fun rest => runLines_cons_error rest (stepLine_error_count st h)⟩
  · exact ⟨"invalid literal for int() with base 10", stepLine_error_int st hsp hpe,
      fun rest => runLines_cons_error rest (stepLine_error_int st hsp hpe)⟩

/-- Witness for C9: a line whose end field is not an integer literal aborts
the pass with a `ValueError` and emits nothing. -/
theorem C9_fail_fast_witness :
    ∃ msg : String,
      stepLine initCursor "chr1\t100\toops\t5.0" = Except.error (PyErr.valueError msg) ∧
      ∀ rest : List String,
        runLines initCursor ("chr1\t100\toops\t5.0" :: rest) =
          ([], some (PyErr.valueError msg)) :=
  C9_fail_fast "chr1\t100\toops\t5.0" initCursor
    (Or.inr ⟨"chr1", "100", "oops", "5.0", by decide, Or.inr (by decide)⟩)

/-- Claim C10: every line `adjust_overlaps` writes carries the value token of
some input line verbatim as its fourth field (the value is never parsed or
reformatted), the chromosome token verbatim as its first field, and integers
for the two coordinates. -/
theorem C10_value_verbatim (lines : List String) (o : String)
    (ho : o ∈ (adjust_overlaps lines).1) :
    ∃ i ∈ lines, ∃ c s e v : String, pySplit i = [c, s, e, v] ∧
      ∃ a b : Int, o = c ++ "\t" ++ toString a ++ "\t" ++ toString b ++ "\t" ++ v :=
  runLines_src lines initCursor o ho

/-- Witness for C10 at a single-line input whose value token has a nontrivial
textual form. -/
theorem C10_value_verbatim_witness :
    ∃ i ∈ ["chr1\t100\t200\t5.00e-1"], ∃ c s e v : String, pySplit i = [c, s, e, v] ∧
      ∃ a b : Int,
        "chr1\t100\t200\t5.00e-1" = c ++ "\t" ++ toString a ++ "\t" ++ toString b ++ "\t" ++ v :=
  C10_value_verbatim ["chr1\t100\t200\t5.00e-1"] "chr1\t100\t200\t5.00e-1" (by decide)

/-! ### Helper lemmas about the pipeline driver -/

lemma pyBind_ok {α β : Type} (fx : List Effect) (a : α) (f : α → PyM β) :
    pyBind (fx, Except.ok a) f = (fx ++ (f a).1, (f a).2) := rfl

lemma pyBind_error {α β : Type} (fx : List Effect) (e : PyErr) (f : α → PyM β) :
    pyBind (fx, Except.error e) f = (fx, Except.error e) := rfl

lemma maybeWget_shape (env : Env) (r : String × String) :
    (∃ fx, maybeWget env r = (fx, Except.ok ())) ∨
    maybeWget env r = ([], Except.error PyErr.fileNotFound) := by
  unfold maybeWget
  by_cases h : env.pathExists r.2
  · rw [if_pos h]
    exact Or.inl ⟨[], rfl⟩
  · rw [if_neg h]
    unfold runProcM
    cases hr : env.runResult ["wget", r.1] with
    | none => exact Or.inr rfl
    | some code => exact Or.inl ⟨[Effect.runProc ["wget", r.1]], rfl⟩

lemma wgetAll_shape (rs : List (String × String)) (env : Env) :
    (∃ fx, wgetAll env rs = (fx, Except.ok ())) ∨
    (∃ fx, wgetAll env rs = (fx, Except.error PyErr.fileNotFound)) := by
  induction rs with
  | nil => exact Or.inl ⟨[], rfl⟩
  | cons r rs ih =>
    have hco : wgetAll env (r :: rs) = pyBind (maybeWget env r) (fun _ => wgetAll env rs) := rfl
    rw [hco]
    rcases maybeWget_shape env r with ⟨fx, hx⟩ | hx
    · rw [hx, pyBind_ok]
      rcases ih with ⟨fy, hy⟩ | ⟨fy, hy⟩
      · rw [hy]
        exact Or.inl ⟨fx ++ fy, rfl⟩
      · rw [hy]
        exact Or.inr ⟨fx ++ fy, rfl⟩
    · rw [hx, pyBind_error]
      exact Or.inr ⟨[], rfl⟩

lemma chmodM_shape (env : Env) (f : String) :
    chmodM env f = ([Effect.chmod f], Except.ok ()) ∨
    chmodM env f = ([], Except.error PyErr.fileNotFound) := by
  unfold chmodM
  by_cases h : env.pathExists f
  · rw [if_pos h]; exact Or.inl rfl
  · rw [if_neg h]; exact Or.inr rfl

/-- `download_resources` either succeeds with a nonempty effect trace (the
three `chmod` calls at least) or aborts with `FileNotFoundError`; in
particular it never raises a `ValueError`. -/
lemma download_resources_cases (env : Env) :
    (∃ fx, download_resources env = (fx, Except.ok ()) ∧ fx ≠ []) ∨
    (∃ fx, download_resources env = (fx, Except.error PyErr.fileNotFound)) := by
  unfold download_resources
  rcases wgetAll_shape resources env with ⟨fx, hx⟩ | ⟨fx, hx⟩
  · rw [hx, pyBind_ok]
    rcases chmodM_shape env "bigWigToBedGraph" with h1 | h1 <;> rw [h1]
    · rw [pyBind_ok]
      rcases chmodM_shape env "bedGraphToBigWig" with h2 | h2 <;> rw [h2]
      · rw [pyBind_ok]
        rcases chmodM_shape env "bedClip" with h3 | h3 <;> rw [h3]
        · exact Or.inl ⟨_, rfl, by simp⟩
        · exact Or.inr ⟨_, rfl⟩
      · rw [pyBind_error]
        exact Or.inr ⟨_, rfl⟩
    · rw [pyBind_error]
      exact Or.inr ⟨_, rfl⟩
  · rw [hx, pyBind_error]
    exact Or.inr ⟨fx, rfl⟩

/-- Claim C7: `convert_bigwig` raises a configuration `ValueError`, before any
external process or file I/O effect, exactly when the two assembly identifiers
are not each one of `hg19`/`hg38` or are equal: the effect trace is empty and
the outcome is a `ValueError` precisely for invalid combinations. -/
theorem C7_assembly_validation (env : Env) (i o s t : String) (ct : Bool) :
    ¬ validAssemblies s t ↔
      ((convert_bigwig env i o s t ct).1 = [] ∧
       ∃ m : String, (convert_bigwig env i o s t ct).2 = Except.error (PyErr.valueError m)) := by
  constructor
  · intro hnv
    unfold convert_bigwig
    by_cases h1 : ¬ (s = "hg19" ∨ s = "hg38") ∨ ¬ (t = "hg19" ∨ t = "hg38")
    · rw [if_pos h1]
      exact ⟨rfl, _, rfl⟩
    · rw [if_neg h1]
      push_neg at h1
      have hst : s = t := by
        by_contra hne
        exact hnv ⟨h1.1, h1.2, hne⟩
      rw [if_pos hst]
      exact ⟨rfl, _, rfl⟩
  · rintro ⟨hemp, m, herr⟩
    by_contra hv
    obtain ⟨hs, ht, hne⟩ := hv
    have h1 : ¬ (¬ (s = "hg19" ∨ s = "hg38") ∨ ¬ (t = "hg19" ∨ t = "hg38")) := by
      push_neg
      exact ⟨hs, ht⟩
    unfold convert_bigwig at hemp herr
    rw [if_neg h1, if_neg hne] at hemp herr
    rcases download_resources_cases env with ⟨fx, hdl, hfx⟩ | ⟨fx, hdl⟩
    · rw [hdl, pyBind_ok] at hemp
      exact hfx (List.append_eq_nil.mp hemp).1
    · rw [hdl, pyBind_error] at herr
      exact PyErr.noConfusion (Except.error.inj herr)

/-- Witness for C7: `hg19 → hg19` is rejected with an empty effect trace. -/
theorem C7_assembly_validation_witness :
    (convert_bigwig envExitOne "in.bw" "out.bw" "hg19" "hg19" true).1 = [] ∧
    ∃ m : String,
      (convert_bigwig envExitOne "in.bw" "out.bw" "hg19" "hg19" true).2 =
        Except.error (PyErr.valueError m) :=
  (C7_assembly_validation envExitOne "in.bw" "out.bw" "hg19" "hg19" true).mp (by decide)

/-- Counterexample to claim C8 as stated: in `envExitOne` the
`./bigWigToBedGraph` stage exits with status 1, yet the later `CrossMap` stage
and the final `./bedGraphToBigWig` encode stage (which produces the output
file) still run, and the driver finishes without any error — the non-zero exit
status is not propagated, because `subprocess.run` is called without
`check=True`. -/
theorem C8_counterexample :
    envExitOne.runResult ["./bigWigToBedGraph", "in.bw", "input.bedGraph"] = some 1 ∧
    Effect.runProc ["./bigWigToBedGraph", "in.bw", "input.bedGraph"]
      ∈ (convert_bigwig envExitOne "in.bw" "out.bw" "hg19" "hg38" true).1 ∧
    Effect.runProc ["CrossMap", "bed", "hg19ToHg38.over.chain.gz", "input.bedGraph", "output.bedGraph"]
      ∈ (convert_bigwig envExitOne "in.bw" "out.bw" "hg19" "hg38" true).1 ∧
    Effect.runProc ["./bedGraphToBigWig", "adjusted_output.bedGraph", "hg38.chrom.sizes", "out.bw"]
      ∈ (convert_bigwig envExitOne "in.bw" "out.bw" "hg19" "hg38" true).1 ∧
    (convert_bigwig envExitOne "in.bw" "out.bw" "hg19" "hg38" true).2 = Except.ok () := by
  decide

/-- Claim C8 amended: a missing binary raises `FileNotFoundError` and an
exception stops every later stage; but a stage that merely exits non-zero is
not detected (the exit status is discarded), so only the missing-binary half of
the claim holds.  Concretely, with the `CrossMap` binary missing the driver
fails with `FileNotFoundError` and the final encode stage never runs. -/
theorem C8_missing_binary_amended :
    (∀ (env : Env) (argv : List String), env.runResult argv = none →
        runProcM env argv = ([], Except.error PyErr.fileNotFound)) ∧
    (∀ (env : Env) (argv : List String) (code : Int), env.runResult argv = some code →
        runProcM env argv = ([Effect.runProc argv], Except.ok ())) ∧
    (∀ (α β : Type) (fx : List Effect) (e : PyErr) (f : α → PyM β),
        pyBind (fx, Except.error e) f = (fx, Except.error e)) ∧
    ((convert_bigwig envNoCrossMap "in.bw" "out.bw" "hg19" "hg38" true).2 =
        Except.error PyErr.fileNotFound ∧
      Effect.runProc ["./bedGraphToBigWig", "adjusted_output.bedGraph", "hg38.chrom.sizes", "out.bw"]
        ∉ (convert_bigwig envNoCrossMap "in.bw" "out.bw" "hg19" "hg38" true).1) := by
  refine ⟨?_, ?_, ?_, by decide⟩
  · intro env argv h
    unfold runProcM
    rw [h]
  · intro env argv code h
    unfold runProcM
    rw [h]
  · intro α β fx e f
    rfl

/-- Witness for the amended C8: running the missing `CrossMap` binary raises
`FileNotFoundError` with no effect performed. -/
theorem C8_missing_binary_amended_witness :
    runProcM envNoCrossMap ["CrossMap"] = ([], Except.error PyErr.fileNotFound) :=
  C8_missing_binary_amended.1 envNoCrossMap ["CrossMap"] (by decide)

end LiftBigWig
